import Mathlib

/-!
# ecssh: task/container resolution and session hand-off

A shallow embedding of `main.go` and the properties of its resolution pipeline.

Conventions of the embedding

* A Go `string` / `[]byte` is a list of bytes (`GoString`); `str` writes an ASCII literal.
* A Go slice is `Slice α`: `none` is the `nil` slice, `some xs` a non-nil slice.
* A Go pointer field (`*string`) is an `Option`; dereferencing `none` panics.
* A Go function returning `(T, error)` returns `Res T`: `ok v`, `err msg`, or `panic`
  for a run-time panic inside the call.
* The results of the AWS control-plane calls are parameters of the functions that
  make them.
* The terminal is a `Console` (bytes printed so far, number of `fmt.Scanln` calls so
  far) together with the sequence `stdin : Nat → ScanResult` of what the successive
  `fmt.Scanln` calls return. Loops that wait for the operator take a `fuel` bound on
  their iterations and return `none` when it is used up.
* The child's stderr reaches the relay through a pipe that `cmd.Wait()` closes when
  the child exits; how many bytes the relay had read by then is a parameter.
-/

namespace Ecssh

/-! ## Strings, slices, results -/

/-- A Go string: a finite sequence of bytes. A byte is a natural number below 256;
nothing in the model depends on the bound. -/
abbrev GoString := List Nat

/-- The bytes of an ASCII literal. -/
def str (s : String) : GoString := s.toList.map Char.toNat

/-- A Go slice value: `none` is the nil slice. -/
abbrev Slice (α : Type) := Option (List α)

/-- The elements of a slice, what `range` iterates over (nothing for nil). -/
def Slice.elems {α : Type} (s : Slice α) : List α := s.getD []

/-- Go's `len(s)`. -/
def Slice.len {α : Type} (s : Slice α) : Nat := s.elems.length

/-- Go's `append(s, x)`: the result is never nil. -/
def Slice.push {α : Type} (s : Slice α) (x : α) : Slice α := some (s.elems ++ [x])

/-- Outcome of a Go call that returns `(T, error)`. -/
inductive Res (α : Type) where
  | ok (v : α)
  | err (msg : GoString)
  | panic
  deriving DecidableEq, Repr

/-- Byte `/`. -/
def slash : Nat := 47

/-- Byte `:`. -/
def colon : Nat := 58

/-- Byte `\n`. -/
def newline : Nat := 10

/-- Byte `\r`. -/
def carriageReturn : Nat := 13

/-- Go's `strings.Split(s, sep)` for a one-byte separator, the only way the program
calls it: the pieces of `s` between the occurrences of `sep`; always at least one
piece. -/
def split (s : GoString) (sep : Nat) : List GoString :=
  match s with
  | [] => [[]]
  | c :: cs =>
    if c = sep then [] :: split cs sep
    else
      match split cs sep with
      | [] => [[c]]
      | p :: ps => (c :: p) :: ps

/-- Go's `strings.HasPrefix(s, pre)`. -/
def hasPrefix (s pre : GoString) : Bool :=
  match pre, s with
  | [], _ => true
  | _ :: _, [] => false
  | p :: ps, c :: cs => c == p && hasPrefix cs ps

/-- Go's `strings.Contains(s, substr)`: `substr` occurs at some offset of `s`. -/
def contains (s substr : GoString) : Bool :=
  match s with
  | [] => hasPrefix [] substr
  | c :: cs => hasPrefix (c :: cs) substr || contains cs substr

/-- Go's `bytes.IndexByte(data, c)`: the offset of the first `c`, `none` for -1. -/
def indexByte (data : GoString) (c : Nat) : Option Nat :=
  match data with
  | [] => none
  | d :: ds => if d = c then some 0 else (indexByte ds c).map (· + 1)

/-- Decimal digits of a natural number, most significant first (`%d`). -/
def itoa (n : Nat) : GoString := (Nat.toDigits 10 n).map Char.toNat

/-- Value of a run of ASCII decimal digits, `none` when a byte is not a digit. -/
def parseDigits (ds : GoString) (acc : Nat) : Option Nat :=
  match ds with
  | [] => some acc
  | d :: rest => if 48 ≤ d ∧ d ≤ 57 then parseDigits rest (acc * 10 + (d - 48)) else none

/-- Go's `strconv.Atoi` on a 64-bit platform: an optional sign and at least one
decimal digit, nothing else, the value within the range of `int`; `none` stands for
a non-nil error. -/
def Atoi (s : GoString) : Option Int :=
  let signed : Bool × GoString :=
    match s with
    | 45 :: r => (true, r)
    | 43 :: r => (false, r)
    | _ => (false, s)
  if signed.2 = [] then none
  else
    match parseDigits signed.2 0 with
    | none => none
    | some n =>
      let v : Int := if signed.1 then -(n : Int) else (n : Int)
      if -(2 : Int) ^ 63 ≤ v ∧ v < (2 : Int) ^ 63 then some v else none

/-! ## Identifier normalisation (main.go 126-155) -/

/-- `extractTaskDefName`: last `/` segment, then the first `:` piece of it. -/
def extractTaskDefName (taskDefArn : GoString) : GoString :=
  match (split taskDefArn slash).getLast? with
  | some taskDefWithVersion =>
    match (split taskDefWithVersion colon).head? with
    | some name => name
    | none => taskDefArn
  | none => taskDefArn

/-- `extractTaskId`: last `/` segment. -/
def extractTaskId (taskArn : GoString) : GoString :=
  match (split taskArn slash).getLast? with
  | some last => last
  | none => taskArn

/-! ## Records -/

/-- The fields of the SDK's `types.Container` the program reads; all are `*string`. -/
structure Container where
  Name : Option GoString
  LastStatus : Option GoString
  RuntimeId : Option GoString
  deriving DecidableEq, Repr

/-- `TaskInfo` (main.go 29-33). -/
structure TaskInfo where
  TaskArn : GoString
  TaskDefName : GoString
  ContainerNames : Slice GoString
  deriving DecidableEq, Repr

/-- The part of the SDK's `types.Task` that `connectToContainer` reads. -/
structure TaskDetail where
  Containers : Slice Container
  deriving DecidableEq, Repr

/-! ## Container filter and task matcher (main.go 109-147) -/

/-- The loop of `extractRunningContainers`; `names` is the slice built so far. -/
def extractRunningContainersLoop (containers : List Container) (names : Slice GoString) :
    Res (Slice GoString) :=
  match containers with
  | [] => .ok names
  | container :: more =>
    if container.LastStatus ≠ none ∧ container.LastStatus = some (str "RUNNING") then
      match container.Name with
      | none => .panic
      | some name => extractRunningContainersLoop more (names.push name)
    else extractRunningContainersLoop more names

/-- `extractRunningContainers`: starts from `var names []string`, the nil slice. -/
def extractRunningContainers (containers : Slice Container) : Res (Slice GoString) :=
  extractRunningContainersLoop containers.elems none

/-- The loop of `FindMatchingTasks`; `matching` is the slice built so far. -/
def matchingLoop (tasks : List TaskInfo) (taskNamePattern : GoString)
    (matching : Slice TaskInfo) : Slice TaskInfo :=
  match tasks with
  | [] => matching
  | task :: more =>
    if contains task.TaskDefName taskNamePattern then
      matchingLoop more taskNamePattern (matching.push task)
    else matchingLoop more taskNamePattern matching

/-- `FindMatchingTasks`; `listed` is what `ListTasksInCluster(clusterName)` returned. -/
def FindMatchingTasks (listed : Res (Slice TaskInfo)) (taskNamePattern : GoString) :
    Res (Slice TaskInfo) :=
  match listed with
  | .ok tasks => .ok (matchingLoop tasks.elems taskNamePattern none)
  | .err e => .err e
  | .panic => .panic

/-! ## Terminal -/

/-- What one call of `fmt.Scanln(&input)` hands back: the token read (`err == nil`)
or a failure (`err != nil`: end of input, an empty line, more than one word). -/
inductive ScanResult where
  | input (s : GoString)
  | failed (e : GoString)
  deriving DecidableEq, Repr

/-- The terminal as the program has used it so far. -/
structure Console where
  out : GoString
  reads : Nat
  deriving DecidableEq, Repr

/-- `fmt.Print` and friends: append to standard output. -/
def Console.print (w : Console) (s : GoString) : Console := { w with out := w.out ++ s }

/-- `fmt.Scanln(&input)`: the next read result, and the terminal after the read. -/
def Console.scanln (w : Console) (stdin : Nat → ScanResult) : ScanResult × Console :=
  (stdin w.reads, { w with reads := w.reads + 1 })

/-- Go's `xs[i]` for an `int` index: `none` is the index-out-of-range panic. -/
def indexAt {α : Type} (xs : List α) (i : Int) : Option α :=
  if i < 0 then none else xs.get? i.toNat

/-! ## Interactive chooser and selection resolver (main.go 317-358) -/

/-- The `for i, item := range items` loop of `selectFromList`, from index `i`. -/
def printItems (items : List GoString) (i : Nat) (w : Console) : Console :=
  match items with
  | [] => w
  | item :: more =>
    printItems more (i + 1) (w.print (itoa (i + 1) ++ str ") " ++ item ++ str "\n"))

/-- The `for { ... }` loop of `selectFromList` over `n = len(items)` items; `none`
when `fuel` iterations did not reach the `return`. -/
def selectLoop (stdin : Nat → ScanResult) (n : Nat) (fuel : Nat) (w : Console) :
    Option (Res Int × Console) :=
  match fuel with
  | 0 => none
  | fuel + 1 =>
    let w1 := w.print (str "> ")
    match w1.scanln stdin with
    | (.failed _, w2) => selectLoop stdin n fuel w2
    | (.input input, w2) =>
      match Atoi input with
      | none =>
        selectLoop stdin n fuel (w2.print (str "Invalid selection (1-" ++ itoa n ++ str ")\n"))
      | some selection =>
        if selection < 1 ∨ selection > (n : Int) then
          selectLoop stdin n fuel (w2.print (str "Invalid selection (1-" ++ itoa n ++ str ")\n"))
        else some (.ok (selection - 1), w2)

/-- `selectFromList`. -/
def selectFromList (stdin : Nat → ScanResult) (fuel : Nat) (prompt : GoString)
    (items : Slice GoString) (w : Console) : Option (Res Int × Console) :=
  if items.len = 0 then some (.err (str "no items available"), w)
  else selectLoop stdin items.len fuel (printItems items.elems 0 (w.print (prompt ++ str "\n")))

/-- The claim's words for a read result that ends the chooser over `n` items: an
input that parses as an integer `k` with `1 ≤ k ≤ n`; `some k` then, else `none`. -/
def validSelection (n : Nat) (r : ScanResult) : Option Int :=
  match r with
  | .failed _ => none
  | .input s =>
    match Atoi s with
    | none => none
    | some k => if 1 ≤ k ∧ k ≤ (n : Int) then some k else none

/-- `selectContainer`. -/
def selectContainer (stdin : Nat → ScanResult) (fuel : Nat) (containers : Slice GoString)
    (force : Bool) (w : Console) : Option (Res GoString × Console) :=
  if containers.len = 0 then some (.err (str "no containers available"), w)
  else if force = true ∨ containers.len = 1 then
    match indexAt containers.elems 0 with
    | some c => some (.ok c, w)
    | none => some (.panic, w)
  else
    match selectFromList stdin fuel (str "Select container:") containers w with
    | none => none
    | some (.err e, w1) => some (.err e, w1)
    | some (.panic, w1) => some (.panic, w1)
    | some (.ok idx, w1) =>
      match indexAt containers.elems idx with
      | some c => some (.ok c, w1)
      | none => some (.panic, w1)

/-! ## Session broker (main.go 174-223) -/

/-- The runtime-id loop of `connectToContainer` (main.go 208-214): the value of
`runtimeId` after the loop, the empty string when no container matched. -/
def findRuntimeId (containers : List Container) (containerName : GoString) : Res GoString :=
  match containers with
  | [] => .ok []
  | container :: more =>
    match container.Name with
    | none => .panic
    | some name =>
      if name = containerName then
        match container.RuntimeId with
        | none => .panic
        | some runtimeId => .ok runtimeId
      else findRuntimeId more containerName

/-- `connectToContainer` up to the SSM target of line 222. `execErr` is the error of
`ExecuteCommand`, `marshalErr` that of `json.Marshal(execResult.Session)`, `described`
what `DescribeTasks` returned. `ok target` is the `Target` string the function goes
on with. -/
def connectToContainer (execErr marshalErr : Option GoString)
    (described : Except GoString (Slice TaskDetail))
    (clusterName taskArn containerName : GoString) : Res GoString :=
  match execErr with
  | some e => .err (str "ExecuteCommand failed: " ++ e)
  | none =>
    match marshalErr with
    | some e => .err (str "failed to marshal session: " ++ e)
    | none =>
      match described with
      | .error e => .err (str "failed to describe task: " ++ e)
      | .ok tasks =>
        match tasks.elems with
        | [] => .err (str "task not found")
        | task0 :: _ =>
          match findRuntimeId task0.Containers.elems containerName with
          | .panic => .panic
          | .err e => .err e
          | .ok runtimeId =>
            if runtimeId = [] then
              .err (str "runtime ID not found for container " ++ containerName)
            else
              .ok (str "ecs:" ++ clusterName ++ str "_" ++ extractTaskId taskArn
                ++ str "_" ++ runtimeId)

/-! ## Line scanning (bufio.Scanner with the default ScanLines) -/

/-- Go's `bufio.MaxScanTokenSize`, the size the scanner's buffer may grow to. -/
def maxScanTokenSize : Nat := 64 * 1024

/-- The `dropCR` of `bufio.ScanLines`: one trailing `\r` is removed. -/
def dropCR (data : GoString) : GoString :=
  if data.getLast? = some carriageReturn then data.dropLast else data

/-- One `scanner.Scan()` on the unread bytes `rest` of the reader: `some (line, rest1)`
when it returns true with `scanner.Text() = line`, `none` when it returns false (end
of input, or a line that does not fit the buffer together with its newline). -/
def scanLine (rest : GoString) : Option (GoString × GoString) :=
  if rest = [] then none
  else
    match indexByte rest newline with
    | some i =>
      if i + 1 ≤ maxScanTokenSize then some (dropCR (rest.take i), rest.drop (i + 1))
      else none
    | none => if rest.length < maxScanTokenSize then some (dropCR rest, []) else none

/-- The loop `for scanner.Scan() { line := scanner.Text(); body }` with loop state
`st`; `fuel` bounds the iterations. -/
def forEachLine {σ : Type} (body : σ → GoString → σ) (fuel : Nat) (rest : GoString)
    (st : σ) : σ :=
  match fuel with
  | 0 => st
  | fuel + 1 =>
    match scanLine rest with
    | none => st
    | some (line, rest1) => forEachLine body fuel rest1 (body st line)

/-- The lines of a byte stream, as the claims speak of them: the pieces between the
newlines, terminators removed; what follows the last newline is a line only when it is
not empty. -/
def inputLines (s : GoString) : List GoString :=
  if (split s newline).getLast? = some [] then (split s newline).dropLast
  else split s newline

/-- The lines a scanner gets to: those before the first line of `maxScanTokenSize`
bytes or more. -/
def scannableLines (s : GoString) : List GoString :=
  (inputLines s).takeWhile (fun l => decide (l.length < maxScanTokenSize))

/-- The notice the relay suppresses. -/
def sessionMarker : GoString := str "Starting session with SessionId:"

/-- The stderr relay of `connectToContainer` (main.go 262-275): the bytes written to
the process's error stream. `childStderr` is what the child wrote to its stderr.
`delivered` is the number of those bytes the relay's reads obtained before the pipe
was closed: `cmd.Wait()` (line 278) closes the pipe when the child exits, without
waiting for the relay (`wg.Wait()` comes after it, line 279), and the read that
follows fails, which the scanner treats like end of input. With
`delivered ≥ len(childStderr)` the relay reached end of input first. Every iteration
consumes at least one byte, so `len + 1` iterations exhaust what was read. -/
def relayStderr (childStderr : GoString) (delivered : Nat) : GoString :=
  forEachLine
    (fun out line => if !contains line sessionMarker then out ++ (line ++ [newline]) else out)
    ((childStderr.take delivered).length + 1) (childStderr.take delivered) []

/-- `filteredWriter` (main.go 157-161); `writer` is what the underlying writer has
received so far. -/
structure filteredWriter where
  writer : GoString
  filter : GoString → Bool

/-- `filteredWriter.Write`: scans the chunk `p` alone, forwards the lines the filter
accepts, and returns `len(p)` together with the writer after the call. -/
def filteredWriter.Write (f : filteredWriter) (p : GoString) : Nat × filteredWriter :=
  (p.length,
   { f with
     writer :=
       forEachLine (fun out line => if f.filter line then out ++ (line ++ [newline]) else out)
         (p.length + 1) p f.writer })

/-! ## Task-definition choice of interactiveMode (main.go 399-426) -/

/-- The label `fmt.Sprintf("%s (%d tasks)", name, len(taskList))`. -/
def taskDefLabel (name : GoString) (n : Nat) : GoString :=
  name ++ str " (" ++ itoa n ++ str " tasks)"

/-- Lines 405-423 of `interactiveMode`. `firstRange` and `secondRange` are the entries
of the map `taskGroups` in the order the two `range` loops visit them, `idx` the index
`selectFromList` returned. The result is `selectedTaskDef` after the prefix scan;
`none` is an index-out-of-range panic. -/
def chosenTaskDef (firstRange secondRange : List (GoString × List TaskInfo)) (idx : Int) :
    Option GoString :=
  let taskDefNames := firstRange.map (fun e => taskDefLabel e.1 e.2.length)
  match indexAt taskDefNames idx with
  | none => none
  | some selectedTaskDef =>
    match secondRange.find? (fun e => hasPrefix selectedTaskDef e.1) with
    | some e => some e.1
    | none => some selectedTaskDef

/-! ## Strings -/

theorem split_cons (c : Nat) (cs : GoString) (sep : Nat) :
    split (c :: cs) sep =
      if c = sep then [] :: split cs sep
      else
        match split cs sep with
        | [] => [[c]]
        | p :: ps => (c :: p) :: ps := by
  conv => lhs; unfold split

theorem split_ne_nil (s : GoString) (sep : Nat) : split s sep ≠ [] := by
  cases s with
  | nil => simp [split]
  | cons c cs =>
    rw [split_cons]
    split_ifs
    · simp
    · cases split cs sep <;> simp

theorem split_of_not_mem (s : GoString) (sep : Nat) (h : sep ∉ s) : split s sep = [s] := by
  induction s with
  | nil => simp [split]
  | cons c cs ih =>
    simp only [List.mem_cons, not_or] at h
    rw [split_cons, if_neg (fun e => h.1 e.symm), ih h.2]

theorem split_append_sep (x y : GoString) (sep : Nat) :
    split (x ++ sep :: y) sep = split x sep ++ split y sep := by
  induction x with
  | nil => simp [split_cons, split]
  | cons c cs ih =>
    rw [List.cons_append, split_cons, split_cons c cs]
    split_ifs with hc
    · simp [ih]
    · rw [ih]
      cases hs : split cs sep with
      | nil => exact absurd hs (split_ne_nil cs sep)
      | cons p ps => simp

theorem getLast?_split_segment (pre seg : GoString) (sep : Nat) (h : sep ∉ seg) :
    (split (pre ++ sep :: seg) sep).getLast? = some seg := by
  rw [split_append_sep, split_of_not_mem seg sep h]
  simp

theorem head?_split_piece (name rest : GoString) (sep : Nat) (h : sep ∉ name) :
    (split (name ++ sep :: rest) sep).head? = some name := by
  rw [split_append_sep, split_of_not_mem name sep h]
  simp

theorem hasPrefix_iff (s pre : GoString) : hasPrefix s pre = true ↔ pre <+: s := by
  induction pre generalizing s with
  | nil => simp [hasPrefix]
  | cons p ps ih =>
    cases s with
    | nil => simp [hasPrefix]
    | cons c cs =>
      simp only [hasPrefix, Bool.and_eq_true, beq_iff_eq, ih, List.cons_prefix_cons]
      constructor
      · rintro ⟨rfl, h⟩; exact ⟨rfl, h⟩
      · rintro ⟨rfl, h⟩; exact ⟨rfl, h⟩

theorem contains_iff (s substr : GoString) : contains s substr = true ↔ substr <:+: s := by
  induction s with
  | nil =>
    simp only [contains, hasPrefix_iff, List.prefix_nil, List.infix_nil]
  | cons c cs ih =>
    simp only [contains, Bool.or_eq_true, hasPrefix_iff, ih, List.infix_cons_iff]

theorem contains_nil (s : GoString) : contains s [] = true := by
  rw [contains_iff]; exact List.nil_infix

/-! ## Container filter and task matcher -/

theorem extractRunningContainersLoop_eq (containers : List Container) (names : Slice GoString)
    (hnamed : ∀ c ∈ containers, c.LastStatus = some (str "RUNNING") → c.Name ≠ none) :
    ∃ found : List GoString,
      found.map some =
          (containers.filter (fun c => decide (c.LastStatus = some (str "RUNNING")))).map
            (·.Name) ∧
        extractRunningContainersLoop containers names =
          .ok (if found = [] then names else some (names.elems ++ found)) := by
  induction containers generalizing names with
  | nil => exact ⟨[], by simp, by simp [extractRunningContainersLoop]⟩
  | cons c cs ih =>
    have hcs : ∀ d ∈ cs, d.LastStatus = some (str "RUNNING") → d.Name ≠ none :=
      fun d hd => hnamed d (List.mem_cons_of_mem _ hd)
    by_cases hrun : c.LastStatus = some (str "RUNNING")
    · cases hname : c.Name with
      | none => exact absurd hname (hnamed c (List.mem_cons_self _ _) hrun)
      | some name =>
        obtain ⟨found, hmap, hloop⟩ := ih (names.push name) hcs
        refine ⟨name :: found, ?_, ?_⟩
        · simp [List.filter_cons, hrun, hname, hmap]
        · unfold extractRunningContainersLoop
          rw [if_pos ⟨by simp [hrun], hrun⟩]
          simp only [hname, hloop]
          by_cases hf : found = []
          · simp [hf, Slice.push]
          · simp [hf, Slice.push, Slice.elems]
    · obtain ⟨found, hmap, hloop⟩ := ih names hcs
      refine ⟨found, ?_, ?_⟩
      · simp [List.filter_cons, hrun, hmap]
      · unfold extractRunningContainersLoop
        rw [if_neg (fun h => hrun h.2)]
        exact hloop

theorem matchingLoop_eq (tasks : List TaskInfo) (pattern : GoString) (matching : Slice TaskInfo) :
    matchingLoop tasks pattern matching =
      if tasks.filter (fun t => decide (pattern <:+: t.TaskDefName)) = [] then matching
      else some (matching.elems
        ++ tasks.filter (fun t => decide (pattern <:+: t.TaskDefName))) := by
  induction tasks generalizing matching with
  | nil => simp [matchingLoop]
  | cons t ts ih =>
    unfold matchingLoop
    by_cases h : pattern <:+: t.TaskDefName
    · rw [if_pos ((contains_iff _ _).2 h), ih]
      by_cases hf : ts.filter (fun t => decide (pattern <:+: t.TaskDefName)) = []
      · simp [List.filter_cons, h, hf, Slice.push]
      · simp [List.filter_cons, h, hf, Slice.push, Slice.elems]
    · have hc : ¬ contains t.TaskDefName pattern = true := fun hc => h ((contains_iff _ _).1 hc)
      rw [if_neg hc, ih]
      simp [List.filter_cons, h]

/-! ## Interactive chooser -/

theorem printItems_reads (items : List GoString) (i : Nat) (w : Console) :
    (printItems items i w).reads = w.reads := by
  induction items generalizing i w with
  | nil => rfl
  | cons item more ih => simp [printItems, ih, Console.print]

theorem printItems_out (items : List GoString) (i : Nat) (w : Console) :
    w.out <+: (printItems items i w).out := by
  induction items generalizing i w with
  | nil => exact List.prefix_refl _
  | cons item more ih =>
    simp only [printItems]
    have hstep := ih (i + 1) (w.print (itoa (i + 1) ++ str ") " ++ item ++ str "\n"))
    exact List.IsPrefix.trans
      (show w.out <+: (w.print (itoa (i + 1) ++ str ") " ++ item ++ str "\n")).out from
        List.prefix_append _ _) hstep

theorem selectLoop_succ (stdin : Nat → ScanResult) (n fuel : Nat) (w : Console) :
    selectLoop stdin n (fuel + 1) w =
      match stdin w.reads with
      | .failed _ => selectLoop stdin n fuel ⟨w.out ++ str "> ", w.reads + 1⟩
      | .input input =>
        match Atoi input with
        | none =>
          selectLoop stdin n fuel
            ⟨w.out ++ str "> " ++ (str "Invalid selection (1-" ++ itoa n ++ str ")\n"),
              w.reads + 1⟩
        | some selection =>
          if selection < 1 ∨ selection > (n : Int) then
            selectLoop stdin n fuel
              ⟨w.out ++ str "> " ++ (str "Invalid selection (1-" ++ itoa n ++ str ")\n"),
                w.reads + 1⟩
          else some (.ok (selection - 1), ⟨w.out ++ str "> ", w.reads + 1⟩) := by
  conv => lhs; unfold selectLoop
  simp only [Console.scanln, Console.print]
  cases stdin w.reads <;> rfl

theorem selectLoop_valid (stdin : Nat → ScanResult) (n fuel : Nat) (w : Console) (k : Int)
    (h : validSelection n (stdin w.reads) = some k) :
    selectLoop stdin n (fuel + 1) w =
      some (.ok (k - 1), ⟨w.out ++ str "> ", w.reads + 1⟩) := by
  unfold validSelection at h
  rw [selectLoop_succ]
  cases hr : stdin w.reads with
  | failed e => simp [hr] at h
  | input s =>
    rw [hr] at h
    simp only at h ⊢
    cases ha : Atoi s with
    | none => simp [ha] at h
    | some sel =>
      rw [ha] at h
      simp only at h ⊢
      by_cases hk : 1 ≤ sel ∧ sel ≤ (n : Int)
      · rw [if_pos hk] at h
        have hsel : sel = k := Option.some.inj h
        subst hsel
        have hnot : ¬ (sel < 1 ∨ sel > (n : Int)) := by omega
        rw [if_neg hnot]
      · rw [if_neg hk] at h
        exact absurd h (by simp)

theorem selectLoop_invalid (stdin : Nat → ScanResult) (n fuel : Nat) (w : Console)
    (h : validSelection n (stdin w.reads) = none) :
    ∃ w1 : Console, w1.reads = w.reads + 1 ∧ w.out <+: w1.out ∧
      selectLoop stdin n (fuel + 1) w = selectLoop stdin n fuel w1 := by
  unfold validSelection at h
  rw [selectLoop_succ]
  cases hr : stdin w.reads with
  | failed e =>
    exact ⟨⟨w.out ++ str "> ", w.reads + 1⟩, rfl, List.prefix_append _ _, rfl⟩
  | input s =>
    rw [hr] at h
    simp only at h ⊢
    cases ha : Atoi s with
    | none =>
      exact ⟨⟨w.out ++ str "> " ++ (str "Invalid selection (1-" ++ itoa n ++ str ")\n"),
        w.reads + 1⟩, rfl, by rw [List.append_assoc]; exact List.prefix_append _ _, rfl⟩
    | some sel =>
      rw [ha] at h
      simp only at h ⊢
      by_cases hk : 1 ≤ sel ∧ sel ≤ (n : Int)
      · rw [if_pos hk] at h
        exact absurd h (by simp)
      · have hbad : sel < 1 ∨ sel > (n : Int) := by omega
        refine ⟨⟨w.out ++ str "> " ++ (str "Invalid selection (1-" ++ itoa n ++ str ")\n"),
          w.reads + 1⟩, rfl, by rw [List.append_assoc]; exact List.prefix_append _ _, ?_⟩
        rw [if_pos hbad]

theorem validSelection_bounds (n : Nat) (r : ScanResult) (k : Int)
    (h : validSelection n r = some k) : 1 ≤ k ∧ k ≤ (n : Int) := by
  unfold validSelection at h
  cases r with
  | failed e => simp at h
  | input s =>
    simp only at h
    cases ha : Atoi s with
    | none => simp [ha] at h
    | some sel =>
      rw [ha] at h
      simp only at h
      by_cases hk : 1 ≤ sel ∧ sel ≤ (n : Int)
      · rw [if_pos hk] at h
        exact (Option.some.inj h) ▸ hk
      · rw [if_neg hk] at h
        exact absurd h (by simp)

/-- While no read is a valid selection the loop keeps prompting. -/
theorem selectLoop_never (stdin : Nat → ScanResult) (n : Nat) (fuel : Nat) (w : Console)
    (h : ∀ j, validSelection n (stdin (w.reads + j)) = none) :
    selectLoop stdin n fuel w = none := by
  induction fuel generalizing w with
  | zero => rfl
  | succ fuel ih =>
    obtain ⟨w1, hreads, -, hstep⟩ := selectLoop_invalid stdin n fuel w (by simpa using h 0)
    rw [hstep]
    apply ih
    intro j
    rw [hreads]
    have := h (j + 1)
    rwa [show w.reads + (j + 1) = w.reads + 1 + j by omega] at this

/-- The loop returns at the first valid selection, given fuel to reach it. -/
theorem selectLoop_first (stdin : Nat → ScanResult) (n : Nat) (k : Int) (j : Nat) (fuel : Nat)
    (w : Console) (hk : validSelection n (stdin (w.reads + j)) = some k)
    (hbefore : ∀ i, i < j → validSelection n (stdin (w.reads + i)) = none) (hfuel : j < fuel) :
    ∃ w1 : Console, selectLoop stdin n fuel w = some (.ok (k - 1), w1) ∧
      w1.reads = w.reads + j + 1 := by
  induction j generalizing fuel w with
  | zero =>
    obtain ⟨f, rfl⟩ : ∃ f, fuel = f + 1 := ⟨fuel - 1, by omega⟩
    exact ⟨_, selectLoop_valid stdin n f w k (by simpa using hk), rfl⟩
  | succ j ih =>
    obtain ⟨f, rfl⟩ : ∃ f, fuel = f + 1 := ⟨fuel - 1, by omega⟩
    obtain ⟨w1, hreads, -, hstep⟩ :=
      selectLoop_invalid stdin n f w (by simpa using hbefore 0 (by omega))
    rw [hstep]
    obtain ⟨w2, hres, hr2⟩ := ih f w1
      (by rw [hreads, show w.reads + 1 + j = w.reads + (j + 1) by omega]; exact hk)
      (by
        intro i hi
        rw [hreads, show w.reads + 1 + i = w.reads + (i + 1) by omega]
        exact hbefore (i + 1) (by omega))
      (by omega)
    exact ⟨w2, hres, by rw [hr2, hreads]; omega⟩

/-- Whatever the loop returns is the index of a valid selection, after at least one
read, with the earlier output kept. -/
theorem selectLoop_returns (stdin : Nat → ScanResult) (n : Nat) (fuel : Nat) (w : Console)
    (r : Res Int) (w1 : Console) (h : selectLoop stdin n fuel w = some (r, w1)) :
    ∃ k : Int, r = .ok (k - 1) ∧ 1 ≤ k ∧ k ≤ (n : Int) ∧ w.reads < w1.reads ∧
      w.out <+: w1.out := by
  induction fuel generalizing w with
  | zero => simp [selectLoop] at h
  | succ fuel ih =>
    cases hv : validSelection n (stdin w.reads) with
    | some k =>
      rw [selectLoop_valid stdin n fuel w k hv] at h
      simp only [Option.some.injEq, Prod.mk.injEq] at h
      obtain ⟨hr, hw⟩ := h
      obtain ⟨h1, h2⟩ := validSelection_bounds n _ k hv
      refine ⟨k, hr.symm, h1, h2, ?_, ?_⟩
      · rw [← hw]; simp
      · rw [← hw]; exact List.prefix_append _ _
    | none =>
      obtain ⟨w2, hreads, hout, hstep⟩ := selectLoop_invalid stdin n fuel w hv
      rw [hstep] at h
      obtain ⟨k, hr, h1, h2, h3, h4⟩ := ih w2 h
      exact ⟨k, hr, h1, h2, by omega, hout.trans h4⟩

/-! ## Session broker -/

theorem exists_last_sep (s : GoString) (sep : Nat) (h : sep ∈ s) :
    ∃ pre seg : GoString, s = pre ++ sep :: seg ∧ sep ∉ seg := by
  induction s with
  | nil => exact absurd h (List.not_mem_nil _)
  | cons c cs ih =>
    by_cases hcs : sep ∈ cs
    · obtain ⟨pre, seg, hs, hseg⟩ := ih hcs
      exact ⟨c :: pre, seg, by rw [hs]; rfl, hseg⟩
    · rcases List.mem_cons.1 h with hc | hc
      · exact ⟨[], cs, by rw [hc]; rfl, hcs⟩
      · exact absurd hc hcs

theorem extractTaskId_segment (pre seg : GoString) (h : slash ∉ seg) :
    extractTaskId (pre ++ slash :: seg) = seg := by
  unfold extractTaskId
  rw [getLast?_split_segment pre seg slash h]

theorem extractTaskId_no_slash (s : GoString) (h : slash ∉ s) : extractTaskId s = s := by
  unfold extractTaskId
  rw [split_of_not_mem s slash h]
  rfl

theorem extractTaskId_eq_nil_iff (s : GoString) :
    extractTaskId s = [] ↔ s = [] ∨ s.getLast? = some slash := by
  by_cases hmem : slash ∈ s
  · obtain ⟨pre, seg, hs, hseg⟩ := exists_last_sep s slash hmem
    rw [hs, extractTaskId_segment pre seg hseg]
    constructor
    · intro h
      right
      rw [h]
      simp
    · rintro (h | h)
      · simp at h
      · cases seg using List.reverseRecOn with
        | nil => rfl
        | append_singleton l a =>
          rw [show pre ++ slash :: (l ++ [a]) = (pre ++ slash :: l) ++ [a] by simp,
            List.getLast?_concat] at h
          have ha : a = slash := Option.some.inj h
          exact absurd (by rw [ha]; simp) hseg
  · rw [extractTaskId_no_slash s hmem]
    constructor
    · exact fun h => Or.inl h
    · rintro (h | h)
      · exact h
      · exact absurd (List.mem_of_mem_getLast? h) hmem

theorem findRuntimeId_ok (containers : List Container) (containerName runtimeId : GoString)
    (h : findRuntimeId containers containerName = .ok runtimeId) (hne : runtimeId ≠ []) :
    ∃ (before : List Container) (c : Container) (after : List Container),
      containers = before ++ c :: after ∧ (∀ b ∈ before, b.Name ≠ some containerName) ∧
        c.Name = some containerName ∧ c.RuntimeId = some runtimeId := by
  induction containers with
  | nil =>
    simp only [findRuntimeId, Res.ok.injEq] at h
    exact absurd h.symm hne
  | cons c cs ih =>
    unfold findRuntimeId at h
    cases hname : c.Name with
    | none => simp [hname] at h
    | some name =>
      rw [hname] at h
      simp only at h
      by_cases heq : name = containerName
      · rw [if_pos heq] at h
        cases hrid : c.RuntimeId with
        | none => simp [hrid] at h
        | some rid =>
          rw [hrid] at h
          simp only [Res.ok.injEq] at h
          exact ⟨[], c, cs, rfl, by simp, by rw [hname, heq], by rw [hrid, h]⟩
      · rw [if_neg heq] at h
        obtain ⟨before, d, after, hcs, hb, hd, hr⟩ := ih h
        refine ⟨c :: before, d, after, by rw [hcs]; rfl, ?_, hd, hr⟩
        intro b hbm
        rcases List.mem_cons.1 hbm with hbc | hbc
        · rw [hbc, hname]
          intro hcontra
          exact heq (Option.some.inj hcontra)
        · exact hb b hbc

/-! ## Line scanning -/

theorem indexByte_eq_none (s : GoString) (c : Nat) (h : indexByte s c = none) : c ∉ s := by
  induction s with
  | nil => exact List.not_mem_nil _
  | cons d ds ih =>
    unfold indexByte at h
    by_cases hd : d = c
    · rw [if_pos hd] at h; exact absurd h (by simp)
    · rw [if_neg hd] at h
      have hds : indexByte ds c = none := by simpa using h
      intro hmem
      rcases List.mem_cons.1 hmem with hc | hc
      · exact hd hc.symm
      · exact ih hds hc

theorem indexByte_eq_some (s : GoString) (c i : Nat) (h : indexByte s c = some i) :
    s = s.take i ++ c :: s.drop (i + 1) ∧ c ∉ s.take i ∧ i < s.length := by
  induction s generalizing i with
  | nil => simp [indexByte] at h
  | cons d ds ih =>
    unfold indexByte at h
    by_cases hd : d = c
    · rw [if_pos hd] at h
      have hi : i = 0 := (Option.some.inj h).symm
      subst hi
      simp [hd]
    · rw [if_neg hd] at h
      cases hds : indexByte ds c with
      | none => rw [hds] at h; exact absurd h (by simp)
      | some j =>
        rw [hds] at h
        have hi : i = j + 1 := (Option.some.inj h).symm
        subst hi
        obtain ⟨h1, h2, h3⟩ := ih j hds
        refine ⟨?_, ?_, ?_⟩
        · simp only [List.take_succ_cons, List.drop_succ_cons, List.cons_append]
          rw [← h1]
        · simp only [List.take_succ_cons, List.mem_cons, not_or]
          exact ⟨fun e => hd e.symm, h2⟩
        · simp only [List.length_cons]; omega

theorem inputLines_nil : inputLines [] = [] := by
  decide

theorem inputLines_of_not_mem (s : GoString) (h : newline ∉ s) (hne : s ≠ []) :
    inputLines s = [s] := by
  unfold inputLines
  rw [split_of_not_mem s newline h]
  simp [hne]

theorem inputLines_append_newline (x y : GoString) :
    inputLines (x ++ newline :: y) = split x newline ++ inputLines y := by
  unfold inputLines
  rw [split_append_sep]
  have hy := split_ne_nil y newline
  have hlast : (split x newline ++ split y newline).getLast? = (split y newline).getLast? := by
    rw [List.getLast?_append]
    cases hl : (split y newline).getLast? with
    | none => exact absurd (List.getLast?_eq_none_iff.1 hl) hy
    | some a => rfl
  rw [hlast]
  split_ifs
  · exact List.dropLast_append_of_ne_nil _ hy
  · rfl

theorem inputLines_first (a r : GoString) (h : newline ∉ a) :
    inputLines (a ++ newline :: r) = a :: inputLines r := by
  rw [inputLines_append_newline, split_of_not_mem a newline h]
  rfl

theorem inputLines_terminated (x : GoString) :
    inputLines (x ++ [newline]) = split x newline := by
  rw [inputLines_append_newline, inputLines_nil, List.append_nil]

theorem inputLines_append (a b : GoString) (hend : a = [] ∨ a.getLast? = some newline) :
    inputLines (a ++ b) = inputLines a ++ inputLines b := by
  rcases hend with h | h
  · subst h
    simp [inputLines_nil]
  · have ha : a.dropLast ++ [newline] = a := List.dropLast_append_getLast? _ h
    rw [← ha, List.append_assoc, List.singleton_append, inputLines_append_newline,
      inputLines_terminated]

theorem scannableLines_nil : scannableLines [] = [] := by
  unfold scannableLines
  rw [inputLines_nil]
  rfl

theorem dropCR_concat (l : GoString) : dropCR (l ++ [carriageReturn]) = l := by
  unfold dropCR
  rw [List.getLast?_concat, if_pos rfl, List.dropLast_concat]

theorem dropCR_of_ne (l : GoString) (h : l.getLast? ≠ some carriageReturn) : dropCR l = l := by
  unfold dropCR
  rw [if_neg h]

/-- The scanning loop visits the scannable lines, each with its trailing `\r` dropped. -/
theorem forEachLine_eq {σ : Type} (body : σ → GoString → σ) (fuel : Nat) (rest : GoString)
    (st : σ) (hfuel : rest.length < fuel) :
    forEachLine body fuel rest st =
      (scannableLines rest).foldl (fun acc l => body acc (dropCR l)) st := by
  induction fuel generalizing rest st with
  | zero => exact absurd hfuel (Nat.not_lt_zero _)
  | succ fuel ih =>
    unfold forEachLine scanLine
    by_cases hrest : rest = []
    · subst hrest
      rw [if_pos rfl, scannableLines_nil]
      rfl
    · rw [if_neg hrest]
      cases hidx : indexByte rest newline with
      | some i =>
        obtain ⟨hsplit, hnot, hlt⟩ := indexByte_eq_some rest newline i hidx
        have hlines : inputLines rest = rest.take i :: inputLines (rest.drop (i + 1)) := by
          conv => lhs; rw [hsplit]
          exact inputLines_first _ _ hnot
        have hlen : (rest.take i).length = i := by
          rw [List.length_take]; omega
        simp only
        by_cases hfit : i + 1 ≤ maxScanTokenSize
        · rw [if_pos hfit]
          simp only
          rw [ih _ _ (by rw [List.length_drop]; omega)]
          unfold scannableLines
          rw [hlines, List.takeWhile_cons, if_pos (by rw [hlen]; simpa using hfit)]
          rfl
        · rw [if_neg hfit]
          unfold scannableLines
          rw [hlines, List.takeWhile_cons,
            if_neg (by rw [hlen, decide_eq_true_eq]; omega)]
          rfl
      | none =>
        have hnot := indexByte_eq_none rest newline hidx
        have hlines : inputLines rest = [rest] := inputLines_of_not_mem rest hnot hrest
        have hpos : 0 < rest.length := List.length_pos.2 hrest
        simp only
        by_cases hfit : rest.length < maxScanTokenSize
        · rw [if_pos hfit]
          simp only
          rw [ih _ _ (by simp only [List.length_nil]; omega), scannableLines_nil]
          unfold scannableLines
          rw [hlines, List.takeWhile_cons, if_pos (by simpa using hfit)]
          rfl
        · rw [if_neg hfit]
          unfold scannableLines
          rw [hlines, List.takeWhile_cons, if_neg (by simpa using hfit)]
          rfl

/-- What a forwarding loop body leaves behind for a list of scanned lines. -/
theorem foldl_forward (keep : GoString → Bool) (ls : List GoString) (out : GoString) :
    ls.foldl (fun acc l => if keep (dropCR l) = true then acc ++ (dropCR l ++ [newline]) else acc)
        out =
      out ++ ((ls.filter (fun l => keep (dropCR l))).map (fun l => dropCR l ++ [newline])).flatten
    := by
  induction ls generalizing out with
  | nil => simp
  | cons l ls ih =>
    rw [List.foldl_cons, ih]
    by_cases hk : keep (dropCR l) = true
    · rw [if_pos hk, List.filter_cons, if_pos hk]
      simp
    · rw [if_neg hk, List.filter_cons, if_neg hk]

theorem infix_dropCR (m l : GoString) (hne : m ≠ []) (hlast : m.getLast? ≠ some carriageReturn) :
    m <:+: dropCR l ↔ m <:+: l := by
  by_cases hl : l.getLast? = some carriageReturn
  · have hcat : l.dropLast ++ [carriageReturn] = l := List.dropLast_append_getLast? _ hl
    have hd : dropCR l = l.dropLast := by
      unfold dropCR
      rw [if_pos hl]
    rw [hd]
    constructor
    · intro h
      rw [← hcat]
      exact List.IsInfix.trans h (List.infix_append' [] l.dropLast [carriageReturn])
    · rintro ⟨s, t, hst⟩
      cases t using List.reverseRecOn with
      | nil =>
        rw [List.append_nil] at hst
        have : (s ++ m).getLast? = some carriageReturn := by rw [hst]; exact hl
        rw [List.getLast?_append] at this
        cases hm : m.getLast? with
        | none => exact absurd (List.getLast?_eq_none_iff.1 hm) hne
        | some a =>
          rw [hm] at this hlast
          exact absurd this hlast
      | append_singleton t a =>
        rw [← hcat, ← List.append_assoc] at hst
        obtain ⟨h1, -⟩ := List.append_inj' hst rfl
        exact ⟨s, t, h1⟩
  · rw [dropCR_of_ne l hl]

theorem relayStderr_eq (childStderr : GoString) (delivered : Nat) :
    relayStderr childStderr delivered =
      (((scannableLines (childStderr.take delivered)).filter
          (fun l => decide (¬ sessionMarker <:+: l))).map
        (fun l => dropCR l ++ [newline])).flatten := by
  unfold relayStderr
  rw [forEachLine_eq _ _ _ _ (Nat.lt_succ_self _)]
  have hbody : (fun (acc : GoString) (l : GoString) =>
      if (!contains (dropCR l) sessionMarker) = true then acc ++ (dropCR l ++ [newline])
      else acc) =
      (fun acc l => if (fun x => !contains x sessionMarker) (dropCR l) = true
        then acc ++ (dropCR l ++ [newline]) else acc) := rfl
  rw [hbody, foldl_forward (fun x => !contains x sessionMarker)]
  have hfilter : (fun l => (fun x => !contains x sessionMarker) (dropCR l)) =
      (fun l => decide (¬ sessionMarker <:+: l)) := by
    funext l
    have hiff := infix_dropCR sessionMarker l (by decide) (by decide)
    by_cases hc : sessionMarker <:+: l
    · have : contains (dropCR l) sessionMarker = true := (contains_iff _ _).2 (hiff.2 hc)
      simp [this, hc]
    · have : ¬ contains (dropCR l) sessionMarker = true :=
        fun h => hc (hiff.1 ((contains_iff _ _).1 h))
      simp [this, hc]
  rw [hfilter, List.nil_append]

theorem filteredWriter_Write_eq (f : filteredWriter) (p : GoString) :
    (f.Write p).2.writer =
      f.writer ++
        (((scannableLines p).filter (fun l => f.filter (dropCR l))).map
          (fun l => dropCR l ++ [newline])).flatten ∧
      (f.Write p).2.filter = f.filter ∧ (f.Write p).1 = p.length := by
  refine ⟨?_, rfl, rfl⟩
  show forEachLine _ _ _ _ = _
  rw [forEachLine_eq _ _ _ _ (Nat.lt_succ_self _)]
  exact foldl_forward f.filter _ _

theorem scannableLines_long (a r : GoString) (h : newline ∉ a)
    (hlen : maxScanTokenSize ≤ a.length) : scannableLines (a ++ newline :: r) = [] := by
  unfold scannableLines
  rw [inputLines_first a r h, List.takeWhile_cons, if_neg]
  rw [decide_eq_true_eq]
  omega

theorem scannableLines_first (a r : GoString) (h : newline ∉ a)
    (hlen : a.length < maxScanTokenSize) :
    scannableLines (a ++ newline :: r) = a :: scannableLines r := by
  unfold scannableLines
  rw [inputLines_first a r h, List.takeWhile_cons, if_pos (decide_eq_true hlen)]

theorem scannableLines_single (u : GoString) (h : newline ∉ u) (hne : u ≠ [])
    (hlen : u.length < maxScanTokenSize) : scannableLines u = [u] := by
  unfold scannableLines
  rw [inputLines_of_not_mem u h hne, List.takeWhile_cons, if_pos (decide_eq_true hlen)]
  rfl

theorem scannableLines_of_short (a : GoString)
    (hshort : ∀ l ∈ inputLines a, l.length < maxScanTokenSize) :
    scannableLines a = inputLines a := by
  unfold scannableLines
  rw [List.takeWhile_eq_self_iff]
  intro l hl
  exact decide_eq_true (hshort l hl)

theorem scannableLines_append (a b : GoString) (hend : a = [] ∨ a.getLast? = some newline)
    (hshort : ∀ l ∈ inputLines a, l.length < maxScanTokenSize) :
    scannableLines (a ++ b) = scannableLines a ++ scannableLines b := by
  rw [scannableLines_of_short a hshort]
  unfold scannableLines
  rw [inputLines_append a b hend]
  exact List.takeWhile_append_of_pos (fun l hl => decide_eq_true (hshort l hl))

theorem replicate_long_facts :
    newline ∉ List.replicate 65536 120 ∧
      maxScanTokenSize ≤ (List.replicate 65536 120).length := by
  constructor
  · intro h
    have := (List.mem_replicate.1 h).2
    exact absurd this (by decide)
  · rw [List.length_replicate]
    decide

/-! ## C1: extractTaskDefName -/

/-- C1 (as stated, refuted): for the ARN `td/web:app:3` the text after the last `/`
and before the last `:` is `web:app`, but `extractTaskDefName` returns `web`, the text
before the first `:` of the trailing segment. -/
theorem extractTaskDefName_last_colon_counterexample :
    extractTaskDefName (str "td/web:app:3") = str "web" ∧
      extractTaskDefName (str "td/web:app:3") ≠ str "web:app" := by
  decide

/-- C1 (amended): for every ARN `pre ++ "/" ++ seg` whose trailing segment `seg` has no
`/`, `extractTaskDefName` returns `seg` itself when `seg` has no `:`, and otherwise the
part of `seg` before its first `:`. -/
theorem extractTaskDefName_first_colon (pre seg : GoString) (hseg : slash ∉ seg) :
    (colon ∉ seg → extractTaskDefName (pre ++ slash :: seg) = seg) ∧
      (∀ name rest : GoString, seg = name ++ colon :: rest → colon ∉ name →
        extractTaskDefName (pre ++ slash :: seg) = name) := by
  constructor
  · intro hcolon
    unfold extractTaskDefName
    rw [getLast?_split_segment pre seg slash hseg]
    simp [split_of_not_mem seg colon hcolon]
  · intro name rest hsplit hname
    unfold extractTaskDefName
    rw [getLast?_split_segment pre seg slash hseg]
    simp [hsplit, head?_split_piece name rest colon hname]

/-- C1 witness: the amended statement at a real task-definition ARN. -/
theorem extractTaskDefName_first_colon_witness :
    slash ∉ str "web-app:3" ∧
      extractTaskDefName
          (str "arn:aws:ecs:us-east-1:123456789012:task-definition" ++ slash :: str "web-app:3") =
        str "web-app" :=
  ⟨by decide,
    (extractTaskDefName_first_colon (str "arn:aws:ecs:us-east-1:123456789012:task-definition")
        (str "web-app:3") (by decide)).2
      (str "web-app") (str "3") (by decide) (by decide)⟩

/-! ## C2: extractRunningContainers -/

/-- C2 (as stated, refuted): when no container qualifies the result is the nil slice,
not an empty non-nil one (first two conjuncts); and a container list is not always
mapped to a result: a RUNNING container without a name makes the call panic. -/
theorem extractRunningContainers_counterexample :
    extractRunningContainers (some []) = .ok none ∧
      extractRunningContainers (some [⟨some (str "web"), some (str "STOPPED"), none⟩]) ≠
        .ok (some []) ∧
      extractRunningContainers (some [⟨none, some (str "RUNNING"), none⟩]) = .panic := by
  decide

/-- C2 (amended): for every container list in which each RUNNING container has a name,
`extractRunningContainers` returns exactly the names of the containers whose
`LastStatus` is present and equal to "RUNNING", in source order (containers with a
missing or different status are left out), and the result is the nil slice exactly
when no container qualifies. -/
theorem extractRunningContainers_spec (containers : Slice Container)
    (hnamed : ∀ c ∈ containers.elems, c.LastStatus = some (str "RUNNING") → c.Name ≠ none) :
    ∃ names : Slice GoString,
      extractRunningContainers containers = .ok names ∧
        names.elems.map some =
          (containers.elems.filter (fun c => decide (c.LastStatus = some (str "RUNNING")))).map
            (·.Name) ∧
        (names = none ↔ ∀ c ∈ containers.elems, c.LastStatus ≠ some (str "RUNNING")) := by
  obtain ⟨found, hmap, hloop⟩ := extractRunningContainersLoop_eq containers.elems none hnamed
  refine ⟨_, hloop, ?_, ?_⟩
  · by_cases hf : found = []
    · subst hf
      simpa [Slice.elems] using hmap
    · simpa [hf, Slice.elems] using hmap
  · have hiff : found = [] ↔
        ∀ c ∈ containers.elems, c.LastStatus ≠ some (str "RUNNING") := by
      constructor
      · intro hf c hc hrun
        have hmem : c ∈ containers.elems.filter
            (fun c => decide (c.LastStatus = some (str "RUNNING"))) := by
          simp [List.mem_filter, hc, hrun]
        rw [hf] at hmap
        have hnil := List.map_eq_nil_iff.1 hmap.symm
        rw [hnil] at hmem
        exact absurd hmem (List.not_mem_nil _)
      · intro hall
        have hnil : containers.elems.filter
            (fun c => decide (c.LastStatus = some (str "RUNNING"))) = [] := by
          rw [List.filter_eq_nil_iff]
          intro c hc
          simpa using hall c hc
        rw [hnil] at hmap
        simpa using hmap
    by_cases hf : found = []
    · simp [hf, ← hiff]
    · simp [hf, ← hiff]

/-- C2 witness: a stopped, a status-less and two running containers. -/
theorem extractRunningContainers_spec_witness :
    ∃ names : Slice GoString,
      extractRunningContainers
          (some [⟨some (str "init"), some (str "STOPPED"), none⟩,
            ⟨some (str "web"), some (str "RUNNING"), some (str "r1")⟩,
            ⟨none, none, none⟩,
            ⟨some (str "sidecar"), some (str "RUNNING"), none⟩]) = .ok names ∧
        names.elems.map some = [some (str "web"), some (str "sidecar")] ∧
        names ≠ none := by
  obtain ⟨names, h1, h2, h3⟩ := extractRunningContainers_spec
    (some [⟨some (str "init"), some (str "STOPPED"), none⟩,
      ⟨some (str "web"), some (str "RUNNING"), some (str "r1")⟩,
      ⟨none, none, none⟩,
      ⟨some (str "sidecar"), some (str "RUNNING"), none⟩]) (by decide)
  refine ⟨names, h1, ?_, ?_⟩
  · rw [h2]; decide
  · intro hn
    exact absurd (h3.1 hn) (by decide)

/-! ## C3: FindMatchingTasks -/

/-- C3: for every non-empty task collection and every pattern, the matching step of
`FindMatchingTasks` returns, in the original order, exactly the tasks whose
`TaskDefName` has the pattern as a (byte-wise, hence case-sensitive) substring;
applying it again to its own result with the same pattern changes nothing; and with
the empty pattern it returns the input unchanged. -/
theorem FindMatchingTasks_spec (tasks : Slice TaskInfo) (pattern : GoString)
    (hne : tasks.elems ≠ []) :
    (∃ matching : Slice TaskInfo,
        FindMatchingTasks (.ok tasks) pattern = .ok matching ∧
          matching.elems =
            tasks.elems.filter (fun t => decide (pattern <:+: t.TaskDefName))) ∧
      FindMatchingTasks (FindMatchingTasks (.ok tasks) pattern) pattern =
        FindMatchingTasks (.ok tasks) pattern ∧
      FindMatchingTasks (.ok tasks) [] = .ok tasks := by
  refine ⟨⟨_, rfl, ?_⟩, ?_, ?_⟩
  · rw [matchingLoop_eq]
    by_cases hf : tasks.elems.filter (fun t => decide (pattern <:+: t.TaskDefName)) = []
    · rw [if_pos hf, hf]; rfl
    · rw [if_neg hf]; simp only [Slice.elems, Option.getD_some, Option.getD_none,
        List.nil_append]
  · simp only [FindMatchingTasks]
    rw [matchingLoop_eq tasks.elems]
    by_cases hf : tasks.elems.filter (fun t => decide (pattern <:+: t.TaskDefName)) = []
    · rw [if_pos hf]; rfl
    · rw [if_neg hf]
      have hself : (tasks.elems.filter (fun t => decide (pattern <:+: t.TaskDefName))).filter
          (fun t => decide (pattern <:+: t.TaskDefName)) =
            tasks.elems.filter (fun t => decide (pattern <:+: t.TaskDefName)) := by
        rw [List.filter_eq_self]
        intro t ht
        exact (List.mem_filter.1 ht).2
      have hel : Slice.elems (some (Slice.elems (none : Slice TaskInfo) ++
          tasks.elems.filter (fun t => decide (pattern <:+: t.TaskDefName)))) =
          tasks.elems.filter (fun t => decide (pattern <:+: t.TaskDefName)) := rfl
      rw [hel, matchingLoop_eq, hself, if_neg hf]
  · cases tasks with
    | none => exact absurd rfl hne
    | some l =>
      simp only [FindMatchingTasks, matchingLoop_eq]
      have hall : l.filter (fun t => decide (([] : GoString) <:+: t.TaskDefName)) = l := by
        rw [List.filter_eq_self]
        intro t _
        simp
      simp only [Slice.elems, Option.getD_some, Option.getD_none, List.nil_append] at hne ⊢
      rw [hall, if_neg hne]

/-- C3 witness: the scenario of the specification, two tasks of which one matches
(the other differs in case). -/
theorem FindMatchingTasks_spec_witness :
    Slice.elems (some [(⟨str "arn/t1", str "web-app", some [str "web", str "sidecar"]⟩ : TaskInfo),
        ⟨str "arn/t2", str "Web-App", none⟩]) ≠ [] ∧
      ∃ matching : Slice TaskInfo,
        FindMatchingTasks
            (.ok (some [⟨str "arn/t1", str "web-app", some [str "web", str "sidecar"]⟩,
              ⟨str "arn/t2", str "Web-App", none⟩])) (str "web-app") = .ok matching ∧
          matching.elems = [⟨str "arn/t1", str "web-app", some [str "web", str "sidecar"]⟩] :=
  ⟨by decide,
    (FindMatchingTasks_spec
        (some [⟨str "arn/t1", str "web-app", some [str "web", str "sidecar"]⟩,
          ⟨str "arn/t2", str "Web-App", none⟩]) (str "web-app") (by decide)).1.imp
      (fun _ h => ⟨h.1, h.2.trans (by decide)⟩)⟩

/-! ## C4: selectContainer -/

/-- C4: `selectContainer` fails with "no containers available" for an empty list
whatever `force` is; for a non-empty list it returns `containers[0]` with the terminal
untouched (nothing printed, nothing read) when `force` is true or there is exactly one
container; and when `force` is false and there are two or more containers its outcome
is that of `selectFromList "Select container:"`: it finishes exactly when the chooser
does, and then the chooser has printed its prompt, consumed at least one read, and
returned the index of the container handed back. -/
theorem selectContainer_spec (stdin : Nat → ScanResult) (fuel : Nat)
    (containers : Slice GoString) (force : Bool) (w : Console) :
    (containers.len = 0 →
        selectContainer stdin fuel containers force w =
          some (.err (str "no containers available"), w)) ∧
      (∀ (c0 : GoString) (rest : List GoString), containers.elems = c0 :: rest →
        force = true ∨ rest = [] →
          selectContainer stdin fuel containers force w = some (.ok c0, w)) ∧
      (force = false → 2 ≤ containers.len →
        (selectContainer stdin fuel containers force w = none ↔
            selectFromList stdin fuel (str "Select container:") containers w = none) ∧
          ∀ (r : Res GoString) (w1 : Console),
            selectContainer stdin fuel containers force w = some (r, w1) →
              ∃ (idx : Int) (c : GoString),
                selectFromList stdin fuel (str "Select container:") containers w =
                    some (.ok idx, w1) ∧
                  indexAt containers.elems idx = some c ∧ r = .ok c ∧
                  w.reads < w1.reads ∧ w.out ++ str "Select container:\n" <+: w1.out) := by
  refine ⟨?_, ?_, ?_⟩
  · intro h0
    simp [selectContainer, h0]
  · intro c0 rest hel hforce
    have hlen : containers.len = rest.length + 1 := by simp [Slice.len, hel]
    have hcond : force = true ∨ containers.len = 1 := by
      rcases hforce with h | h
      · exact Or.inl h
      · exact Or.inr (by simp [hlen, h])
    unfold selectContainer
    rw [if_neg (by omega), if_pos hcond, hel]
    rfl
  · intro hforce hlen
    have hcond : ¬ (force = true ∨ containers.len = 1) := by
      rintro (h | h)
      · rw [hforce] at h; exact absurd h (by decide)
      · omega
    have hne : ¬ containers.len = 0 := by omega
    have hsc : selectContainer stdin fuel containers force w =
        match selectFromList stdin fuel (str "Select container:") containers w with
        | none => none
        | some (.err e, w1) => some (.err e, w1)
        | some (.panic, w1) => some (.panic, w1)
        | some (.ok idx, w1) =>
          match indexAt containers.elems idx with
          | some c => some (.ok c, w1)
          | none => some (.panic, w1) := by
      conv => lhs; unfold selectContainer
      rw [if_neg hne, if_neg hcond]
    have hsf : selectFromList stdin fuel (str "Select container:") containers w =
        selectLoop stdin containers.len fuel
          (printItems containers.elems 0 (w.print (str "Select container:" ++ str "\n"))) := by
      unfold selectFromList
      rw [if_neg hne]
    have hshape : ∀ (r : Res Int) (w1 : Console),
        selectFromList stdin fuel (str "Select container:") containers w = some (r, w1) →
          ∃ (idx : Int) (c : GoString), r = .ok idx ∧ indexAt containers.elems idx = some c ∧
            w.reads < w1.reads ∧ w.out ++ str "Select container:\n" <+: w1.out := by
      intro r w1 hr
      rw [hsf] at hr
      obtain ⟨k, hk, h1, h2, h3, h4⟩ := selectLoop_returns _ _ _ _ _ _ hr
      rw [printItems_reads] at h3
      have hlt : (k - 1).toNat < containers.elems.length := by
        have : ((containers.elems.length : Nat) : Int) = (containers.len : Int) := rfl
        omega
      refine ⟨k - 1, containers.elems.get ⟨(k - 1).toNat, hlt⟩, hk, ?_, h3, ?_⟩
      · unfold indexAt
        rw [if_neg (by omega)]
        exact List.get?_eq_get hlt
      · have hp : w.out ++ str "Select container:\n" =
            (w.print (str "Select container:" ++ str "\n")).out := by
          show _ = w.out ++ _
          congr 1
        rw [hp]
        exact List.IsPrefix.trans (printItems_out _ _ _) h4
    constructor
    · rw [hsc]
      cases hres : selectFromList stdin fuel (str "Select container:") containers w with
      | none => simp
      | some p =>
        obtain ⟨r, w1⟩ := p
        obtain ⟨idx, c, hr, hidx, -, -⟩ := hshape r w1 hres
        subst hr
        simp [hidx]
    · intro r w1 hres
      rw [hsc] at hres
      cases hsel : selectFromList stdin fuel (str "Select container:") containers w with
      | none => rw [hsel] at hres; exact absurd hres (by simp)
      | some p =>
        obtain ⟨r0, w0⟩ := p
        obtain ⟨idx, c, hr, hidx, hreads, hout⟩ := hshape r0 w0 hsel
        subst hr
        rw [hsel] at hres
        simp only [hidx, Option.some.injEq, Prod.mk.injEq] at hres
        obtain ⟨hr, hw⟩ := hres
        subst hw
        exact ⟨idx, c, rfl, hidx, hr.symm, hreads, hout⟩

/-- C4 witness: the scenario of the specification, containers `web` and `sidecar`
without `force`: the chooser runs, reads "2" and `sidecar` is returned; with `force`
the first container is returned and the terminal is untouched. -/
theorem selectContainer_spec_witness :
    selectContainer (fun _ => .input (str "2")) 1 (some [str "web", str "sidecar"]) true
        ⟨[], 0⟩ = some (.ok (str "web"), ⟨[], 0⟩) ∧
      ∀ (r : Res GoString) (w1 : Console),
        selectContainer (fun _ => .input (str "2")) 1 (some [str "web", str "sidecar"]) false
            ⟨[], 0⟩ = some (r, w1) →
          0 < w1.reads ∧ str "Select container:\n" <+: w1.out :=
  ⟨(selectContainer_spec (fun _ => .input (str "2")) 1 (some [str "web", str "sidecar"]) true
      ⟨[], 0⟩).2.1 (str "web") [str "sidecar"] rfl (Or.inl rfl),
    fun r w1 h =>
      let ⟨_, _, _, _, _, hreads, hout⟩ :=
        ((selectContainer_spec (fun _ => .input (str "2")) 1 (some [str "web", str "sidecar"])
          false ⟨[], 0⟩).2.2 rfl (by decide)).2 r w1 h
      ⟨hreads, hout⟩⟩

/-! ## C7: selectFromList -/

/-- C7 (as stated, refuted): a failed read does not end `selectFromList`. With every
read failing (a closed input stream) no amount of iterations makes it return, so the
failure is never handed back as an error; and a failed read followed by the input "2"
ends with index 1, not with the failure. -/
theorem selectFromList_read_failure_counterexample :
    (¬ ∃ fuel : Nat,
        selectFromList (fun _ => .failed (str "EOF")) fuel (str "Select container:")
          (some [str "web", str "sidecar"]) ⟨[], 0⟩ ≠ none) ∧
      selectFromList (fun i => if i = 0 then .failed (str "EOF") else .input (str "2")) 2
          (str "Select container:") (some [str "web", str "sidecar"]) ⟨[], 0⟩ =
        some (.ok 1, ⟨str "Select container:\n1) web\n2) sidecar\n> > ", 2⟩) := by
  constructor
  · rintro ⟨fuel, h⟩
    apply h
    unfold selectFromList
    rw [if_neg (by decide)]
    exact selectLoop_never _ _ _ _ (fun _ => rfl)
  · decide

/-- C7 (amended): for every non-empty item list and every sequence of read results,
`selectFromList` returns index `k - 1` at the first read that is an input parsing as
an integer `k` with `1 ≤ k ≤ N` (given the iterations to reach it), every earlier read,
failed or not, only making it prompt again; it returns nothing else; and while no
read is such an input it never returns, in particular when every read fails. -/
theorem selectFromList_spec (stdin : Nat → ScanResult) (prompt : GoString)
    (items : Slice GoString) (w : Console) (hne : items.len ≠ 0) :
    (∀ (j : Nat) (k : Int), validSelection items.len (stdin (w.reads + j)) = some k →
        (∀ i, i < j → validSelection items.len (stdin (w.reads + i)) = none) →
          ∀ fuel, j < fuel →
            ∃ w1 : Console, selectFromList stdin fuel prompt items w = some (.ok (k - 1), w1) ∧
              w1.reads = w.reads + j + 1) ∧
      (∀ (fuel : Nat) (r : Res Int) (w1 : Console),
        selectFromList stdin fuel prompt items w = some (r, w1) →
          ∃ k : Int, r = .ok (k - 1) ∧ 1 ≤ k ∧ k ≤ (items.len : Int)) ∧
      ((∀ j, validSelection items.len (stdin (w.reads + j)) = none) →
        ∀ fuel, selectFromList stdin fuel prompt items w = none) := by
  have hsf : ∀ fuel, selectFromList stdin fuel prompt items w =
      selectLoop stdin items.len fuel
        (printItems items.elems 0 (w.print (prompt ++ str "\n"))) := by
    intro fuel
    unfold selectFromList
    rw [if_neg hne]
  have hreads : (printItems items.elems 0 (w.print (prompt ++ str "\n"))).reads = w.reads := by
    rw [printItems_reads]; rfl
  refine ⟨?_, ?_, ?_⟩
  · intro j k hk hbefore fuel hfuel
    rw [hsf]
    obtain ⟨w1, h1, h2⟩ := selectLoop_first stdin items.len k j fuel _
      (by rw [hreads]; exact hk) (by intro i hi; rw [hreads]; exact hbefore i hi) hfuel
    exact ⟨w1, h1, by rw [h2, hreads]⟩
  · intro fuel r w1 h
    rw [hsf] at h
    obtain ⟨k, hk, h1, h2, -, -⟩ := selectLoop_returns _ _ _ _ _ _ h
    exact ⟨k, hk, h1, h2⟩
  · intro hnone fuel
    rw [hsf]
    exact selectLoop_never _ _ _ _ (by intro j; rw [hreads]; exact hnone j)

/-- C7 witness: an empty line (a failed read), then "7" (out of range), then "2". -/
theorem selectFromList_spec_witness :
    Slice.len (some [str "web", str "sidecar"]) ≠ 0 ∧
      ∃ w1 : Console,
        selectFromList
            (fun i =>
              if i = 0 then .failed (str "unexpected newline")
              else if i = 1 then .input (str "7") else .input (str "2"))
            3 (str "Select container:") (some [str "web", str "sidecar"]) ⟨[], 0⟩ =
          some (.ok 1, w1) ∧ w1.reads = 3 :=
  ⟨by decide,
    (selectFromList_spec
        (fun i =>
          if i = 0 then .failed (str "unexpected newline")
          else if i = 1 then .input (str "7") else .input (str "2"))
        (str "Select container:") (some [str "web", str "sidecar"]) ⟨[], 0⟩ (by decide)).1
      2 2 (by decide) (by decide) 3 (by decide)⟩

/-! ## C6: runtime-id lookup -/

/-- C6 (code at the failing input): the requested container `web` is in the first
task's container list with its runtime id unset (a nil `RuntimeId`);
`connectToContainer` panics on the dereference instead of failing with
"runtime ID not found". A container without a name ahead of the requested one has
the same effect. -/
theorem connectToContainer_unset_runtime_id_panics :
    connectToContainer none none
        (.ok (some [⟨some [⟨some (str "web"), some (str "PENDING"), none⟩]⟩]))
        (str "prod") (str "arn:aws:ecs:us-east-1:123456789012:task/prod/0123abcd")
        (str "web") = .panic ∧
      connectToContainer none none
        (.ok (some [⟨some [⟨none, none, none⟩,
          ⟨some (str "web"), some (str "RUNNING"), some (str "rt-1")⟩]⟩]))
        (str "prod") (str "arn:aws:ecs:us-east-1:123456789012:task/prod/0123abcd")
        (str "web") = .panic := by
  decide

/-! ## C8: the channel target -/

/-- C8 (as stated, refuted): `connectToContainer` gets past runtime-id resolution with
an empty cluster name and a task ARN that ends in `/`; the target it builds, `ecs:__rt-1`,
has an empty cluster and an empty short task id. -/
theorem connectToContainer_empty_components_counterexample :
    connectToContainer none none
        (.ok (some [⟨some [⟨some (str "web"), some (str "RUNNING"), some (str "rt-1")⟩]⟩]))
        [] (str "arn:aws:ecs:us-east-1:123456789012:task/prod/") (str "web") =
      .ok (str "ecs:__rt-1") ∧
      extractTaskId (str "arn:aws:ecs:us-east-1:123456789012:task/prod/") = [] := by
  decide

/-- C8 (amended): whenever `connectToContainer` gets past runtime-id resolution, the
target it builds is `"ecs:" + cluster + "_" + extractTaskId(taskArn) + "_" + runtimeId`,
where `runtimeId` is non-empty and is the runtime id of the first container of the
first described task that bears the requested name, and `extractTaskId(taskArn)` is
the final `/`-delimited segment of the ARN (the ARN itself if it has no `/`). The
cluster and the short task id are not checked: the short id is empty exactly when the
ARN is empty or ends in `/`. -/
theorem connectToContainer_target_spec (execErr marshalErr : Option GoString)
    (described : Except GoString (Slice TaskDetail))
    (clusterName taskArn containerName target : GoString)
    (h : connectToContainer execErr marshalErr described clusterName taskArn containerName =
      .ok target) :
    ∃ runtimeId : GoString,
      runtimeId ≠ [] ∧
        target =
          str "ecs:" ++ clusterName ++ str "_" ++ extractTaskId taskArn ++ str "_" ++ runtimeId ∧
        (∃ (tasks : Slice TaskDetail) (task0 : TaskDetail) (more : List TaskDetail)
            (before : List Container) (c : Container) (after : List Container),
          described = .ok tasks ∧ tasks.elems = task0 :: more ∧
            task0.Containers.elems = before ++ c :: after ∧
            (∀ b ∈ before, b.Name ≠ some containerName) ∧
            c.Name = some containerName ∧ c.RuntimeId = some runtimeId) ∧
        (slash ∉ taskArn → extractTaskId taskArn = taskArn) ∧
        (∀ pre seg : GoString, taskArn = pre ++ slash :: seg → slash ∉ seg →
          extractTaskId taskArn = seg) ∧
        (extractTaskId taskArn = [] ↔ taskArn = [] ∨ taskArn.getLast? = some slash) := by
  unfold connectToContainer at h
  cases execErr with
  | some e => simp at h
  | none =>
    cases marshalErr with
    | some e => simp at h
    | none =>
      cases described with
      | error e => simp at h
      | ok tasks =>
        simp only at h
        cases hel : tasks.elems with
        | nil => simp [hel] at h
        | cons task0 more =>
          rw [hel] at h
          simp only at h
          cases hfind : findRuntimeId task0.Containers.elems containerName with
          | panic => simp [hfind] at h
          | err e => simp [hfind] at h
          | ok runtimeId =>
            rw [hfind] at h
            simp only at h
            by_cases hempty : runtimeId = []
            · rw [if_pos hempty] at h
              simp at h
            · rw [if_neg hempty] at h
              simp only [Res.ok.injEq] at h
              obtain ⟨before, c, after, hcs, hb, hc, hr⟩ :=
                findRuntimeId_ok _ _ _ hfind hempty
              exact ⟨runtimeId, hempty, h.symm,
                ⟨tasks, task0, more, before, c, after, rfl, hel, hcs, hb, hc, hr⟩,
                extractTaskId_no_slash taskArn,
                fun pre seg hs hseg => hs ▸ extractTaskId_segment pre seg hseg,
                extractTaskId_eq_nil_iff taskArn⟩

/-- C8 witness: cluster `prod`, a task ARN and the container `web` behind a sidecar. -/
theorem connectToContainer_target_spec_witness :
    connectToContainer none none
        (.ok (some [⟨some [⟨some (str "sidecar"), some (str "RUNNING"), some (str "rt-0")⟩,
          ⟨some (str "web"), some (str "RUNNING"), some (str "rt-1")⟩]⟩]))
        (str "prod") (str "arn:aws:ecs:us-east-1:123456789012:task/prod/0123abcd")
        (str "web") = .ok (str "ecs:prod_0123abcd_rt-1") ∧
      ∃ runtimeId : GoString, runtimeId ≠ [] ∧
        str "ecs:prod_0123abcd_rt-1" =
          str "ecs:" ++ str "prod" ++ str "_" ++
            extractTaskId (str "arn:aws:ecs:us-east-1:123456789012:task/prod/0123abcd") ++
            str "_" ++ runtimeId :=
  ⟨by decide,
    (connectToContainer_target_spec none none
        (.ok (some [⟨some [⟨some (str "sidecar"), some (str "RUNNING"), some (str "rt-0")⟩,
          ⟨some (str "web"), some (str "RUNNING"), some (str "rt-1")⟩]⟩]))
        (str "prod") (str "arn:aws:ecs:us-east-1:123456789012:task/prod/0123abcd")
        (str "web") (str "ecs:prod_0123abcd_rt-1") (by decide)).imp
      (fun _ hr => ⟨hr.1, hr.2.1⟩)⟩

/-! ## C10: the task-definition choice of interactiveMode -/

/-- C10 (code at the failing input): the groups are `web` and `web-app`, one task
each; the operator picks the second label, "web-app (1 tasks)"; the prefix scan meets
the key `web` first and the name recovered is `web`, not `web-app`. The same happens
when the scan visits the keys in the other order than the labels were built in. -/
theorem chosenTaskDef_prefix_key :
    indexAt
        ([(str "web", [(⟨str "arn/t1", str "web", none⟩ : TaskInfo)]),
          (str "web-app", [⟨str "arn/t2", str "web-app", none⟩])].map
          (fun e => taskDefLabel e.1 e.2.length)) 1 = some (str "web-app (1 tasks)") ∧
      chosenTaskDef
        [(str "web", [⟨str "arn/t1", str "web", none⟩]),
          (str "web-app", [⟨str "arn/t2", str "web-app", none⟩])]
        [(str "web", [⟨str "arn/t1", str "web", none⟩]),
          (str "web-app", [⟨str "arn/t2", str "web-app", none⟩])] 1 = some (str "web") ∧
      chosenTaskDef
        [(str "web-app", [⟨str "arn/t2", str "web-app", none⟩]),
          (str "web", [⟨str "arn/t1", str "web", none⟩])]
        [(str "web", [⟨str "arn/t1", str "web", none⟩]),
          (str "web-app", [⟨str "arn/t2", str "web-app", none⟩])] 0 = some (str "web") := by
  decide

/-! ## C5: the stderr relay -/

/-- C5 (as stated, refuted), at three child streams. `Hello\r\n`, read to its end: the
line `Hello\r` has no marker, yet `Hello\n` is written, the `\r` is gone. 65536 bytes
`x`, a newline and `Hello\n`, read to its end: nothing is written, although `Hello`
has no marker. `Hello\nWorld\n` with the pipe closed after 8 bytes: `Hello\nWo\n` is
written, the line `World` cut short. -/
theorem relayStderr_counterexample :
    (inputLines (str "Hello\r\n") = [str "Hello\r"] ∧
        relayStderr (str "Hello\r\n") 7 = str "Hello\n") ∧
      relayStderr (List.replicate 65536 120 ++ newline :: str "Hello\n") 65543 = [] ∧
      relayStderr (str "Hello\nWorld\n") 8 = str "Hello\nWo\n" := by
  refine ⟨by decide, ?_, by decide⟩
  have hlen : (List.replicate 65536 120 ++ newline :: str "Hello\n").length ≤ 65543 := by
    rw [List.length_append, List.length_replicate, List.length_cons]
    decide
  rw [relayStderr_eq, List.take_of_length_le hlen,
    scannableLines_long _ _ replicate_long_facts.1 replicate_long_facts.2]
  rfl

/-- C5 (amended): for every byte stream on the child's stderr that the relay reads to
its end and whose lines are all shorter than 65536 bytes, the relay writes to the
process's error stream exactly the input lines that do not contain the marker
"Starting session with SessionId:", in order, each with one trailing `\r` removed if
it has one (unmodified when it has none) and followed by one newline; a line is
dropped if and only if it contains the marker. The input
"Starting session with SessionId: abc\nHello\n" yields exactly "Hello\n". -/
theorem relayStderr_spec (childStderr : GoString) (delivered : Nat)
    (hall : childStderr.length ≤ delivered)
    (hshort : ∀ l ∈ inputLines childStderr, l.length < maxScanTokenSize) :
    relayStderr childStderr delivered =
        (((inputLines childStderr).filter (fun l => decide (¬ sessionMarker <:+: l))).map
          (fun l => dropCR l ++ [newline])).flatten ∧
      (∀ l : GoString, dropCR (l ++ [carriageReturn]) = l ∧
        (l.getLast? ≠ some carriageReturn → dropCR l = l)) ∧
      ((∀ l ∈ inputLines childStderr, l.getLast? ≠ some carriageReturn) →
        relayStderr childStderr delivered =
          (((inputLines childStderr).filter (fun l => decide (¬ sessionMarker <:+: l))).map
            (fun l => l ++ [newline])).flatten) ∧
      relayStderr (str "Starting session with SessionId: abc\nHello\n")
          (str "Starting session with SessionId: abc\nHello\n").length = str "Hello\n" := by
  have heq : relayStderr childStderr delivered =
      (((inputLines childStderr).filter (fun l => decide (¬ sessionMarker <:+: l))).map
        (fun l => dropCR l ++ [newline])).flatten := by
    rw [relayStderr_eq, List.take_of_length_le hall, scannableLines_of_short childStderr hshort]
  refine ⟨heq, fun l => ⟨dropCR_concat l, dropCR_of_ne l⟩, ?_, by decide⟩
  intro h
  rw [heq]
  congr 1
  apply List.map_congr_left
  intro l hl
  rw [dropCR_of_ne l (h l (List.mem_filter.1 hl).1)]

/-- C5 witness: a stream with a marker line, a `\r\n` line, an empty line and an
unterminated tail, read to its end. -/
theorem relayStderr_spec_witness :
    relayStderr (str "a\nStarting session with SessionId: s-1\nb\r\n\nc") 100 =
      str "a\nb\n\nc\n" :=
  (relayStderr_spec (str "a\nStarting session with SessionId: s-1\nb\r\n\nc") 100
    (by decide) (by decide)).1.trans (by decide)

/-! ## C9: filteredWriter -/

/-- C9 (as stated, refuted): with the filter that keeps every line, `Write("ab")`
followed by `Write("cd\n")` forwards `ab\ncd\n`, while `Write("abcd\n")` forwards
`abcd\n`: the line split across the two writes is forwarded as two lines. And after a
chunk holding a line of 65536 bytes, `Write("y\n")` still forwards `y\n`, while the
single write of both chunks forwards nothing. -/
theorem filteredWriter_Write_counterexample :
    ((filteredWriter.Write (filteredWriter.Write ⟨[], fun _ => true⟩ (str "ab")).2
        (str "cd\n")).2.writer = str "ab\ncd\n" ∧
      (filteredWriter.Write ⟨[], fun _ => true⟩ (str "ab" ++ str "cd\n")).2.writer =
        str "abcd\n") ∧
      ((filteredWriter.Write
          (filteredWriter.Write ⟨[], fun _ => true⟩ (List.replicate 65536 120 ++ [newline])).2
          (str "y\n")).2.writer = str "y\n" ∧
        (filteredWriter.Write ⟨[], fun _ => true⟩
          ((List.replicate 65536 120 ++ [newline]) ++ str "y\n")).2.writer = []) := by
  refine ⟨by decide, ?_, ?_⟩
  · rw [(filteredWriter_Write_eq _ _).1, (filteredWriter_Write_eq _ _).2.1,
      (filteredWriter_Write_eq _ _).1,
      scannableLines_long _ _ replicate_long_facts.1 replicate_long_facts.2]
    decide
  · rw [(filteredWriter_Write_eq _ _).1, List.append_assoc, List.singleton_append,
      scannableLines_long _ _ replicate_long_facts.1 replicate_long_facts.2]
    rfl

/-- C9 (amended): `filteredWriter` keeps no buffer between calls. For every filter and
all byte strings `a` and `b`: (1) `Write(a)` followed by `Write(b)` forwards what
`Write(a)` forwards followed by what a fresh writer with the same filter forwards for
`b` alone, whatever `a` is; (2) when `a` is empty or ends in a newline and no line of
`a` is 65536 bytes or longer, that is exactly what a single `Write(a ++ b)` forwards;
(3) when a line is split across the two writes (`a` ends in a non-empty unterminated
piece `u`, `b` starts with the rest `v` of the line and its newline, the whole line
being shorter than 65536 bytes), the two writes forward (or suppress) `u` and `v` as
two lines, each filtered and terminated on its own, where the single write forwards
(or suppresses) the one line `u ++ v`. -/
theorem filteredWriter_Write_concat (f : filteredWriter) (a b : GoString) :
    ((f.Write a).2.Write b).2.writer =
        (f.Write a).2.writer ++ (filteredWriter.Write ⟨[], f.filter⟩ b).2.writer ∧
      ((a = [] ∨ a.getLast? = some newline) →
        (∀ l ∈ inputLines a, l.length < maxScanTokenSize) →
          ((f.Write a).2.Write b).2.writer = (f.Write (a ++ b)).2.writer) ∧
      (∀ x u v y : GoString, a = x ++ u → b = v ++ newline :: y →
        (x = [] ∨ x.getLast? = some newline) →
        (∀ l ∈ inputLines x, l.length < maxScanTokenSize) →
        newline ∉ u → u ≠ [] → newline ∉ v → (u ++ v).length < maxScanTokenSize →
          ((f.Write a).2.Write b).2.writer =
              (f.Write x).2.writer
                ++ (if f.filter (dropCR u) = true then dropCR u ++ [newline] else [])
                ++ (if f.filter (dropCR v) = true then dropCR v ++ [newline] else [])
                ++ (filteredWriter.Write ⟨[], f.filter⟩ y).2.writer ∧
            (f.Write (a ++ b)).2.writer =
              (f.Write x).2.writer
                ++ (if f.filter (dropCR (u ++ v)) = true then dropCR (u ++ v) ++ [newline]
                    else [])
                ++ (filteredWriter.Write ⟨[], f.filter⟩ y).2.writer) := by
  refine ⟨?_, ?_, ?_⟩
  · rw [(filteredWriter_Write_eq (f.Write a).2 b).1, (filteredWriter_Write_eq f a).2.1,
      (filteredWriter_Write_eq ⟨[], f.filter⟩ b).1, List.nil_append]
  · intro hend hshort
    rw [(filteredWriter_Write_eq (f.Write a).2 b).1, (filteredWriter_Write_eq f a).2.1,
      (filteredWriter_Write_eq f a).1, (filteredWriter_Write_eq f (a ++ b)).1,
      scannableLines_append a b hend hshort]
    simp [List.append_assoc]
  · intro x u v y ha hb hend hshort hu hune hv hlen
    have hulen : u.length < maxScanTokenSize := by
      rw [List.length_append] at hlen; omega
    have hvlen : v.length < maxScanTokenSize := by
      rw [List.length_append] at hlen; omega
    have huv : newline ∉ u ++ v := by
      intro hmem
      rcases List.mem_append.1 hmem with h | h
      · exact hu h
      · exact hv h
    have h1 : scannableLines (x ++ u) = scannableLines x ++ [u] := by
      rw [scannableLines_append x u hend hshort, scannableLines_single u hu hune hulen]
    have h2 : scannableLines (v ++ newline :: y) = v :: scannableLines y :=
      scannableLines_first v y hv hvlen
    have h3 : scannableLines ((x ++ u) ++ (v ++ newline :: y)) =
        scannableLines x ++ (u ++ v) :: scannableLines y := by
      rw [List.append_assoc, scannableLines_append x _ hend hshort, ← List.append_assoc u,
        scannableLines_first (u ++ v) y huv hlen]
    subst ha hb
    rw [(filteredWriter_Write_eq (f.Write (x ++ u)).2 _).1,
      (filteredWriter_Write_eq f (x ++ u)).2.1, (filteredWriter_Write_eq f (x ++ u)).1,
      (filteredWriter_Write_eq f x).1, (filteredWriter_Write_eq ⟨[], f.filter⟩ y).1,
      (filteredWriter_Write_eq f _).1, h1, h2, h3]
    constructor
    · by_cases hfu : f.filter (dropCR u) = true <;> by_cases hfv : f.filter (dropCR v) = true <;>
        simp [List.filter_cons, hfu, hfv, List.append_assoc]
    · by_cases hfuv : f.filter (dropCR (u ++ v)) = true <;>
        simp [List.filter_cons, hfuv, List.append_assoc]

/-- C9 witness: two chunks that end at line boundaries give what the single write
gives; a line split as `ab` and `cd` is forwarded as the two lines `ab` and `cd`. -/
theorem filteredWriter_Write_concat_witness :
    (filteredWriter.Write (filteredWriter.Write ⟨[], fun l => !contains l (str "x")⟩
        (str "ab\nxy\n")).2 (str "cd\nef")).2.writer =
        (filteredWriter.Write ⟨[], fun l => !contains l (str "x")⟩
          (str "ab\nxy\n" ++ str "cd\nef")).2.writer ∧
      (filteredWriter.Write (filteredWriter.Write ⟨[], fun l => !contains l (str "x")⟩
        (str "1\n" ++ str "ab")).2 (str "cd" ++ newline :: str "2\n")).2.writer =
        str "1\nab\ncd\n2\n" :=
  ⟨(filteredWriter_Write_concat ⟨[], fun l => !contains l (str "x")⟩ (str "ab\nxy\n")
      (str "cd\nef")).2.1 (by decide) (by decide),
    ((filteredWriter_Write_concat ⟨[], fun l => !contains l (str "x")⟩ (str "1\n" ++ str "ab")
      (str "cd" ++ newline :: str "2\n")).2.2 (str "1\n") (str "ab") (str "cd") (str "2\n")
      rfl rfl (by decide) (by decide) (by decide) (by decide) (by decide) (by decide)).1.trans
      (by decide)⟩

end Ecssh
